import Mathlib

set_option maxHeartbeats 1000000

/- Shallow embedding of src/desktopApp.py (Nex2Dash / AssureVision desktop app).
   Text is modeled as List Char; each Python string helper is modeled one-to-one.
   Timestamps are modeled as natural epoch seconds; calendar dates as day
   ordinals (seconds / 86400); on-disk paths as their file names. -/

/-- Python whitespace predicate used by str.strip(). -/
def pyIsSpace (c : Char) : Bool :=
  c == ' ' || c == '\t' || c == '\n' || c == '\r' || c == '\x0b' || c == '\x0c'

/-- Python str.strip(): drop leading and trailing whitespace. -/
def pyStrip (l : List Char) : List Char :=
  ((l.dropWhile pyIsSpace).reverse.dropWhile pyIsSpace).reverse

/-- Python s.replace(" ", ""): remove every space character. -/
def removeSpaces (l : List Char) : List Char := l.filter (fun c => c != ' ')

/-- Python s.upper() (ASCII content in this app). -/
def upper (l : List Char) : List Char := l.map Char.toUpper

/-- Python s.lower() (ASCII content in this app). -/
def lower (l : List Char) : List Char := l.map Char.toLower

/-- Python s.startswith(pre). -/
def startsWithL : List Char → List Char → Bool
  | [], _ => true
  | _ :: _, [] => false
  | p :: ps, c :: cs => p == c && startsWithL ps cs

/-- Python s.endswith(suf). -/
def endsWithL (suf l : List Char) : Bool := startsWithL suf.reverse l.reverse

/-- Python s.split(sep) for a one-character separator: "".split(sep) = [""]. -/
def pySplit (sep : Char) : List Char → List (List Char)
  | [] => [[]]
  | c :: rest =>
    if c = sep then [] :: pySplit sep rest
    else
      match pySplit sep rest with
      | [] => [[c]]
      | s :: ss => (c :: s) :: ss

/-- Python sep.join(parts) for a one-character separator. -/
def intercalateC (sep : Char) : List (List Char) → List Char
  | [] => []
  | [s] => s
  | s :: s2 :: ss => s ++ sep :: intercalateC sep (s2 :: ss)

def jobPassMarker : List Char := ['J','O','B','.','P','A','S','S',':','1']
def jobFailMarker : List Char := ['J','O','B','.','F','A','I','L',':','1']
def jobPassPre : List Char := ['J','O','B','.','P','A','S','S']
def jobFailPre : List Char := ['J','O','B','.','F','A','I','L']
def colonOK : List Char := [':','O','K']
def eqOK : List Char := ['=','O','K']
def txtExt : List Char := ['.','t','x','t']
def bmpExt : List Char := ['.','b','m','p']

/-- labels = [p.strip() for p in text.split(",") if p.strip()]  (lines 70, 375, 562). -/
def labelsOf (text : List Char) : List (List Char) :=
  ((pySplit ',' text).map pyStrip).filter (fun p => !p.isEmpty)

/-- txt_is_pass (desktopApp.py lines 64-79). -/
def txt_is_pass (text : List Char) : Bool :=
  let labels := labelsOf text
  let has_pass := labels.any (fun lbl => upper (removeSpaces lbl) == jobPassMarker)
  if has_pass then true
  else
    let has_fail := labels.any (fun lbl => upper (removeSpaces lbl) == jobFailMarker)
    if has_fail then false
    else false

/-- load_txt (lines 82-87): the read result is modeled as an Option; a successful
    read is stripped, an I/O failure yields the empty text. -/
def load_txt (raw : Option (List Char)) : List Char :=
  match raw with
  | some s => pyStrip s
  | none => []

/-- Identity derivation (lines 368-369):
    parts = base.split("_"); prefix = "_".join(parts[:-1]) if len(parts) > 1 else parts[0]. -/
def prefix_of (base : List Char) : List Char :=
  let parts := pySplit '_' base
  if 1 < parts.length then intercalateC '_' parts.dropLast
  else parts.headD []

/-- One ingested record (line 388-395): {"ts": ..., "is_pass": ..., "path": ..., "content": ...}. -/
structure Record where
  ts : Nat
  is_pass : Bool
  path : List Char
  content : List Char
deriving DecidableEq

/-- One on-disk file seen by os.walk: its name, mtime, and readable content
    (none = unreadable). -/
structure FileEntry where
  name : List Char
  mtime : Nat
  raw : Option (List Char)
deriving DecidableEq

abbrev Grouped := List (List Char × List Record)
abbrev CauseIndex := List (List Char × List (List Char))

/-- defaultdict(list)[k].append(v): insertion-ordered association list update. -/
def addToGroup {α β : Type} [DecidableEq α] : List (α × List β) → α → β → List (α × List β)
  | [], k, v => [(k, [v])]
  | (k2, vs) :: rest, k, v =>
    if k = k2 then (k2, vs ++ [v]) :: rest
    else (k2, vs) :: addToGroup rest k v

/-- Body of the cause-collection loop in parse_folder_data (lines 376-386):
    skip Job.Pass/Job.Fail prefixes, skip :OK/=OK suffixes, then append the raw
    label only for failed items. -/
def parseCauseStep (is_pass : Bool) (pth : List Char) (idx : CauseIndex) (lbl : List Char) :
    CauseIndex :=
  let up := upper (removeSpaces lbl)
  if startsWithL jobPassPre up || startsWithL jobFailPre up then idx
  else if endsWithL colonOK up || endsWithL eqOK up then idx
  else if is_pass = false then addToGroup idx lbl pth else idx

/-- The whole cause-collection loop of parse_folder_data for one file. -/
def collectCauses (idx : CauseIndex) (is_pass : Bool) (pth content : List Char) : CauseIndex :=
  (labelsOf content).foldl (parseCauseStep is_pass pth) idx

/-- One iteration of the os.walk file loop in parse_folder_data (lines 362-395).
    The source skips non-.txt files with a continue. -/
def parse_step (acc : Grouped × CauseIndex) (file : FileEntry) : Grouped × CauseIndex :=
  if endsWithL txtExt (lower file.name) then
    let base := file.name.take (file.name.length - 4)
    let pref := prefix_of base
    let content := load_txt file.raw
    let is_pass := txt_is_pass content
    (addToGroup acc.1 pref { ts := file.mtime, is_pass := is_pass,
                             path := file.name, content := content },
     collectCauses acc.2 is_pass file.name content)
  else acc

/-- parse_folder_data (lines 357-396): returns the grouped records together with
    the aggregated failure-cause index (a field reset at entry in the source). -/
def parse_folder_data (files : List FileEntry) : Grouped × CauseIndex :=
  files.foldl parse_step ([], [])

inductive Outcome
  | All
  | Pass
  | Fail
deriving DecidableEq

/-- The widget state read by apply_filters: outcome filter and the two optional
    date bounds (day ordinals, none = invalid date edit). -/
structure FilterSpec where
  outcome : Outcome
  start_date : Option Nat
  end_date : Option Nat

/-- ts.date(): the calendar date of an epoch-second timestamp as a day ordinal. -/
def dateOf (ts : Nat) : Nat := ts / 86400

/-- The per-record exclusion chain of apply_filters (lines 408-418), as the kept
    predicate. -/
def keepEvent (spec : FilterSpec) (ev : Record) : Bool :=
  if (match spec.start_date with
      | some sd => decide (dateOf ev.ts < sd)
      | none => false) then false
  else if (match spec.end_date with
      | some ed => decide (ed < dateOf ev.ts)
      | none => false) then false
  else if spec.outcome == Outcome.Fail && ev.is_pass then false
  else if spec.outcome == Outcome.Pass && !ev.is_pass then false
  else true

/-- The inner event loop of apply_filters: out.append(ev) for surviving events. -/
def filterEvents (spec : FilterSpec) : List Record → List Record
  | [] => []
  | ev :: rest =>
    if keepEvent spec ev then ev :: filterEvents spec rest
    else filterEvents spec rest

/-- apply_filters (lines 399-420): every prefix key is written back with its
    surviving event list. -/
def apply_filters (spec : FilterSpec) : Grouped → Grouped
  | [] => []
  | (pref, events) :: rest => (pref, filterEvents spec events) :: apply_filters spec rest

/-- Body of the cause loop in render_failure_causes_chart (lines 562-570); the
    is_pass guard sits outside this loop in the source. -/
def chartCauseStep (pth : List Char) (idx : CauseIndex) (lbl : List Char) : CauseIndex :=
  let up := upper (removeSpaces lbl)
  if startsWithL jobPassPre up || startsWithL jobFailPre up then idx
  else if endsWithL colonOK up || endsWithL eqOK up then idx
  else addToGroup idx lbl pth

/-- cause_counts of render_failure_causes_chart (lines 556-570): causes of the
    failed events of the filtered data, keyed by the raw stripped label. -/
def cause_counts (filtered : Grouped) : CauseIndex :=
  filtered.foldl (fun idx e =>
    e.2.foldl (fun idx ev =>
      if ev.is_pass = false then (labelsOf ev.content).foldl (chartCauseStep ev.path) idx
      else idx) idx) []

/-- Bucket boundary of render_heartbeat_chart (lines 643-646):
    ts.timestamp() // 60 * 60. -/
def bucketOf (ts : Nat) : Nat := ts / 60 * 60

/-- grouped[prefix][binned_ts]["pass"/"fail"] += 1, inner level: association
    list bucket -> (pass count, fail count). -/
def bumpBin (bins : List (Nat × Nat × Nat)) (b : Nat) (isPass : Bool) :
    List (Nat × Nat × Nat) :=
  match bins with
  | [] => if isPass then [(b, 1, 0)] else [(b, 0, 1)]
  | (b2, p, f) :: rest =>
    if b = b2 then (if isPass then (b2, p + 1, f) else (b2, p, f + 1)) :: rest
    else (b2, p, f) :: bumpBin rest b isPass

/-- grouped[prefix][...] outer level. -/
def bumpPrefix (g : List (List Char × List (Nat × Nat × Nat))) (k : List Char) (b : Nat)
    (isPass : Bool) : List (List Char × List (Nat × Nat × Nat)) :=
  match g with
  | [] => [(k, bumpBin [] b isPass)]
  | (k2, bins) :: rest =>
    if k = k2 then (k2, bumpBin bins b isPass) :: rest
    else (k2, bins) :: bumpPrefix rest k b isPass

/-- The heartbeat aggregation of render_heartbeat_chart (lines 637-650). -/
def heartbeat (filtered : Grouped) : List (List Char × List (Nat × Nat × Nat)) :=
  filtered.foldl (fun g e =>
    e.2.foldl (fun g ev => bumpPrefix g e.1 (bucketOf ev.ts) ev.is_pass) g) []

/-- One table row of FolderViewer.populate_table (line 184). -/
structure Row where
  ts : List Char
  short_name : List Char
  result : List Char
  read_string : List Char
  img_path : List Char
deriving DecidableEq

/-- The pagination state of FolderViewer (lines 96-98). -/
structure FolderViewer where
  all_rows : List Row
  page_size : Nat
  current_page : Nat
deriving DecidableEq

/-- rows = all_rows[start:end] of refresh_page (lines 189-192). -/
def current_rows (v : FolderViewer) : List Row :=
  (v.all_rows.drop (v.current_page * v.page_size)).take v.page_size

/-- first_page (lines 227-229). -/
def first_page (v : FolderViewer) : FolderViewer :=
  { v with current_page := 0 }

/-- prev_page (lines 231-234). -/
def prev_page (v : FolderViewer) : FolderViewer :=
  if 0 < v.current_page then { v with current_page := v.current_page - 1 } else v

/-- next_page (lines 236-239). -/
def next_page (v : FolderViewer) : FolderViewer :=
  if (v.current_page + 1) * v.page_size < v.all_rows.length then
    { v with current_page := v.current_page + 1 }
  else v

/-- last_page (lines 241-244). -/
def last_page (v : FolderViewer) : FolderViewer :=
  if v.all_rows.isEmpty then v
  else { v with current_page := (v.all_rows.length - 1) / v.page_size }

/-- Claim-side cause tokens for C2's wording: a token is excluded only when its
    normalized form equals the pass or fail marker exactly (or carries an OK
    suffix). For comparison with the source's prefix-based exclusion. -/
def claim_cause_labels (content : List Char) : List (List Char) :=
  (labelsOf content).filter (fun lbl =>
    let up := upper (removeSpaces lbl)
    !(up == jobPassMarker || up == jobFailMarker ||
      endsWithL colonOK up || endsWithL eqOK up))

/-- The source's per-label cause criterion (prefix-based marker exclusion). -/
def causeKeep (lbl : List Char) : Bool :=
  let up := upper (removeSpaces lbl)
  !(startsWithL jobPassPre up || startsWithL jobFailPre up) &&
    !(endsWithL colonOK up || endsWithL eqOK up)

/-- The cause labels the source emits for one record's content. -/
def emittedCauseLabels (content : List Char) : List (List Char) :=
  (labelsOf content).filter causeKeep

/-- Spec-side identity (spec section 6): the base name minus its last
    underscore-delimited segment, or the whole base name without an underscore. -/
def spec_identity (base : List Char) : List Char :=
  if '_' ∈ base then ((base.reverse.dropWhile (fun c => c != '_')).drop 1).reverse
  else base

/-- Total number of records held in a grouped map. -/
def totalRecords (g : Grouped) : Nat := (g.map (fun e => e.2.length)).sum

-- ------------------------- helper lemmas -------------------------

theorem filterEvents_idem (spec : FilterSpec) (l : List Record) :
    filterEvents spec (filterEvents spec l) = filterEvents spec l := by
  induction l with
  | nil => rfl
  | cons ev rest ih =>
    cases h : keepEvent spec ev with
    | true => simp [filterEvents, h, ih]
    | false => simp [filterEvents, h, ih]

theorem parse_step_skip (acc : Grouped × CauseIndex) (f : FileEntry)
    (h : endsWithL txtExt (lower f.name) = false) : parse_step acc f = acc := by
  simp [parse_step, h]

theorem foldl_parse_filter (files : List FileEntry) :
    ∀ acc, files.foldl parse_step acc =
      (files.filter (fun f => endsWithL txtExt (lower f.name))).foldl parse_step acc := by
  induction files with
  | nil => intro acc; rfl
  | cons f rest ih =>
    intro acc
    cases h : endsWithL txtExt (lower f.name) with
    | true => simp [List.foldl_cons, List.filter_cons, h, ih]
    | false => simp [List.foldl_cons, List.filter_cons, h, ih, parse_step_skip _ _ h]

theorem totalRecords_addToGroup (m : Grouped) (k : List Char) (v : Record) :
    totalRecords (addToGroup m k v) = totalRecords m + 1 := by
  induction m with
  | nil => simp [addToGroup, totalRecords]
  | cons e rest ih =>
    obtain ⟨k2, vs⟩ := e
    by_cases h : k = k2
    · simp [addToGroup, h, totalRecords]
      omega
    · simp [addToGroup, h, totalRecords] at *
      omega

theorem totalRecords_foldl (files : List FileEntry) :
    ∀ acc : Grouped × CauseIndex,
      totalRecords (files.foldl parse_step acc).1 =
        totalRecords acc.1 +
          (files.filter (fun f => endsWithL txtExt (lower f.name))).length := by
  induction files with
  | nil => intro acc; simp
  | cons f rest ih =>
    intro acc
    cases h : endsWithL txtExt (lower f.name) with
    | true =>
      simp only [List.foldl_cons, List.filter_cons, h, if_pos, List.length_cons, ih]
      simp [parse_step, h, totalRecords_addToGroup]
      omega
    | false =>
      simp [List.foldl_cons, List.filter_cons, h, parse_step_skip _ _ h, ih]

theorem chartFold_filter (ls : List (List Char)) :
    ∀ (idx : CauseIndex) (pth : List Char),
      ls.foldl (chartCauseStep pth) idx =
        (ls.filter causeKeep).foldl (fun i l => addToGroup i l pth) idx := by
  induction ls with
  | nil => intro idx pth; rfl
  | cons lbl rest ih =>
    intro idx pth
    cases hA : (startsWithL jobPassPre (upper (removeSpaces lbl)) ||
        startsWithL jobFailPre (upper (removeSpaces lbl))) with
    | true =>
      have hk : causeKeep lbl = false := by simp [causeKeep, hA]
      simp [List.foldl_cons, List.filter_cons, chartCauseStep, hA, hk, ih]
    | false =>
      cases hB : (endsWithL colonOK (upper (removeSpaces lbl)) ||
          endsWithL eqOK (upper (removeSpaces lbl))) with
      | true =>
        have hk : causeKeep lbl = false := by simp [causeKeep, hB]
        simp [List.foldl_cons, List.filter_cons, chartCauseStep, hA, hB, hk, ih]
      | false =>
        have hk : causeKeep lbl = true := by simp [causeKeep, hA, hB]
        simp [List.foldl_cons, List.filter_cons, chartCauseStep, hA, hB, hk, ih]

theorem parseCauseStep_false (pth : List Char) (idx : CauseIndex) (lbl : List Char) :
    parseCauseStep false pth idx lbl = chartCauseStep pth idx lbl := by
  simp [parseCauseStep, chartCauseStep]

theorem collectCauses_false (idx : CauseIndex) (pth content : List Char) :
    collectCauses idx false pth content =
      (emittedCauseLabels content).foldl (fun i l => addToGroup i l pth) idx := by
  unfold collectCauses emittedCauseLabels
  rw [List.foldl_ext (parseCauseStep false pth) (chartCauseStep pth) idx
    (fun i l _ => parseCauseStep_false pth i l)]
  exact chartFold_filter (labelsOf content) idx pth

theorem cause_counts_single (k : List Char) (r : Record) (h : r.is_pass = false) :
    cause_counts [(k, [r])] =
      (emittedCauseLabels r.content).foldl (fun i l => addToGroup i l r.path) [] := by
  simp only [cause_counts, List.foldl_cons, List.foldl_nil, h, if_pos]
  rw [chartFold_filter]
  rfl

-- ------------------------- claim theorems -------------------------

/-- C2 (counterexample): the text Job.Pass:0, Job.Fail:1 classifies Fail, yet
    both the filtered cause counts and the ingestion-time cause index are empty
    for it, while the claim's exact-marker-match rule predicts the cause list
    [Job.Pass:0]: the source excludes by the JOB.PASS/JOB.FAIL prefix, not by
    exact equality with the markers. -/
theorem C2_counterexample :
    txt_is_pass ("Job.Pass:0, Job.Fail:1".toList) = false ∧
    cause_counts
        [("u".toList, [⟨0, false, "p".toList, "Job.Pass:0, Job.Fail:1".toList⟩])] = [] ∧
    (parse_folder_data
        [⟨"m_1.txt".toList, 0, some ("Job.Pass:0, Job.Fail:1".toList)⟩]).2 = [] ∧
    claim_cause_labels ("Job.Pass:0, Job.Fail:1".toList) = ["Job.Pass:0".toList] := by
  decide

/-- C2 (amended): for a Fail record, the emitted cause labels are exactly the
    trimmed non-empty tokens whose space-stripped upper-cased form does not
    START WITH JOB.PASS or JOB.FAIL and does not end in :OK or =OK, in both the
    chart's cause counts and the ingestion cause index; in particular
    Voltage:Low, Job.Fail:1 is Fail with cause list exactly [Voltage:Low]. -/
theorem C2_cause_rule :
    (∀ (k : List Char) (r : Record), r.is_pass = false →
        cause_counts [(k, [r])] =
          (emittedCauseLabels r.content).foldl (fun i l => addToGroup i l r.path) []) ∧
    (∀ (idx : CauseIndex) (pth content : List Char),
        collectCauses idx false pth content =
          (emittedCauseLabels content).foldl (fun i l => addToGroup i l pth) idx) ∧
    (txt_is_pass ("Voltage:Low, Job.Fail:1".toList) = false ∧
      cause_counts
          [("u".toList, [⟨0, false, "p".toList, "Voltage:Low, Job.Fail:1".toList⟩])] =
        [("Voltage:Low".toList, ["p".toList])]) := by
  refine ⟨cause_counts_single, collectCauses_false, by decide, by decide⟩

/-- C2 (witness for the amended theorem) at a concrete Fail record. -/
theorem C2_witness :
    cause_counts [("w".toList, [⟨0, false, "q".toList, "Amp:High, Job.Fail:1".toList⟩])] =
      (emittedCauseLabels ("Amp:High, Job.Fail:1".toList)).foldl
        (fun i l => addToGroup i l ("q".toList)) [] :=
  C2_cause_rule.1 ("w".toList) ⟨0, false, "q".toList, "Amp:High, Job.Fail:1".toList⟩ rfl

/-- C1 (counterexample): a folder holding one lone status file a.txt and no
    image file at all still yields a Record for identity a: ingestion does not
    skip status files lacking a same-named image. -/
theorem C1_counterexample :
    (parse_folder_data [⟨"a.txt".toList, 0, some ("x".toList)⟩]).1 =
      [("a".toList, [⟨0, false, "a.txt".toList, "x".toList⟩])] ∧
    ([⟨"a.txt".toList, 0, some ("x".toList)⟩] : List FileEntry).all
        (fun f => !(endsWithL bmpExt (lower f.name))) = true := by
  decide

/-- C1 (amended): ingestion never consults image files: parse_folder_data is
    unchanged by deleting every non-.txt entry, and it forms exactly one Record
    per discovered status (.txt) file, matching image or not. -/
theorem C1_ingestion_ignores_images :
    (∀ files : List FileEntry,
        parse_folder_data files =
          parse_folder_data (files.filter (fun f => endsWithL txtExt (lower f.name)))) ∧
    (∀ files : List FileEntry,
        totalRecords (parse_folder_data files).1 =
          (files.filter (fun f => endsWithL txtExt (lower f.name))).length) := by
  constructor
  · intro files
    unfold parse_folder_data
    exact foldl_parse_filter files ([], [])
  · intro files
    unfold parse_folder_data
    have h := totalRecords_foldl files ([], [])
    simpa [totalRecords] using h

theorem toUpper_of_pyIsSpace (c : Char) (h : pyIsSpace c = true) : c.toUpper = c := by
  simp only [pyIsSpace, Bool.or_eq_true, beq_iff_eq] at h
  rcases h with ((((h | h) | h) | h) | h) | h <;> subst h <;> decide

theorem marker_not_space : ∀ c ∈ jobPassMarker, pyIsSpace c = false := by decide

theorem space_only_of_marker (p : List Char)
    (hm : upper (removeSpaces p) = jobPassMarker) :
    ∀ c ∈ p, pyIsSpace c = true → c = ' ' := by
  intro c hc hsp
  by_contra hne
  have hmem : c ∈ removeSpaces p := by
    rw [removeSpaces, List.mem_filter]
    exact ⟨hc, bne_iff_ne.mpr hne⟩
  have hup : c.toUpper ∈ upper (removeSpaces p) := List.mem_map_of_mem _ hmem
  rw [hm, toUpper_of_pyIsSpace c hsp] at hup
  have hws := marker_not_space c hup
  simp [hsp] at hws

theorem removeSpaces_dropWhile (l : List Char)
    (h : ∀ c ∈ l, pyIsSpace c = true → c = ' ') :
    removeSpaces (l.dropWhile pyIsSpace) = removeSpaces l := by
  induction l with
  | nil => rfl
  | cons a l ih =>
    have h' : ∀ c ∈ l, pyIsSpace c = true → c = ' ' :=
      fun c hc => h c (List.mem_cons_of_mem _ hc)
    cases ha : pyIsSpace a with
    | true =>
      have ha' : a = ' ' := h a (List.mem_cons_self a l) ha
      subst ha'
      rw [show (' ' :: l).dropWhile pyIsSpace = l.dropWhile pyIsSpace from by
        rw [List.dropWhile_cons, if_pos ha]]
      rw [show removeSpaces (' ' :: l) = removeSpaces l from by
        simp [removeSpaces]]
      exact ih h'
    | false =>
      rw [List.dropWhile_cons, if_neg (by simp [ha])]

theorem removeSpaces_reverse (l : List Char) :
    removeSpaces l.reverse = (removeSpaces l).reverse :=
  List.filter_reverse _ l

theorem removeSpaces_pyStrip (p : List Char)
    (h : ∀ c ∈ p, pyIsSpace c = true → c = ' ') :
    removeSpaces (pyStrip p) = removeSpaces p := by
  have h1 : ∀ c ∈ p.dropWhile pyIsSpace, pyIsSpace c = true → c = ' ' :=
    fun c hc => h c ((List.dropWhile_sublist pyIsSpace).mem hc)
  have h2 : ∀ c ∈ (p.dropWhile pyIsSpace).reverse, pyIsSpace c = true → c = ' ' :=
    fun c hc => h1 c (List.mem_reverse.mp hc)
  unfold pyStrip
  rw [removeSpaces_reverse, removeSpaces_dropWhile _ h2, removeSpaces_reverse,
    List.reverse_reverse, removeSpaces_dropWhile p h]

theorem pyStrip_token_marker (tok : List Char)
    (hm : upper (removeSpaces tok) = jobPassMarker) :
    upper (removeSpaces (pyStrip tok)) = jobPassMarker ∧ pyStrip tok ≠ [] := by
  have hrs : removeSpaces (pyStrip tok) = removeSpaces tok :=
    removeSpaces_pyStrip tok (space_only_of_marker tok hm)
  refine ⟨by rw [hrs]; exact hm, ?_⟩
  intro h0
  rw [h0] at hrs
  rw [← hrs] at hm
  simp [removeSpaces, upper, jobPassMarker] at hm

/-- C3 (counterexample): two Fail records of the same identity at 45 s and 75 s
    lie 30 seconds apart yet land in two distinct 60-second buckets (0 and 60),
    each with fail count 1 — not one bucket with fail count 2. -/
theorem C3_counterexample :
    heartbeat [("u".toList, [⟨45, false, [], []⟩, ⟨75, false, [], []⟩])] =
      [("u".toList, [(0, 0, 1), (60, 0, 1)])] ∧ (75 : Nat) = 45 + 30 := by
  decide

/-- C3 (amended): for two Fail records of one identity 30 seconds apart, the
    60-second buckets agree — and the shared bucket's fail count reaches 2 —
    exactly when the earlier timestamp's offset within its bucket is below 30
    seconds; otherwise the buckets differ, are adjacent (boundaries b and
    b + 60), and each carries fail count 1. -/
theorem C3_same_bucket (k : List Char) (r1 r2 : Record)
    (h1 : r1.is_pass = false) (h2 : r2.is_pass = false)
    (hts : r2.ts = r1.ts + 30) :
    (r1.ts % 60 < 30 →
      bucketOf r2.ts = bucketOf r1.ts ∧
      heartbeat [(k, [r1, r2])] = [(k, [(bucketOf r1.ts, 0, 2)])]) ∧
    (30 ≤ r1.ts % 60 →
      bucketOf r2.ts ≠ bucketOf r1.ts ∧
      bucketOf r2.ts = bucketOf r1.ts + 60 ∧
      heartbeat [(k, [r1, r2])] =
        [(k, [(bucketOf r1.ts, 0, 1), (bucketOf r1.ts + 60, 0, 1)])]) := by
  constructor
  · intro hoff
    have hb : bucketOf r2.ts = bucketOf r1.ts := by
      unfold bucketOf
      rw [hts]
      omega
    exact ⟨hb, by simp [heartbeat, List.foldl, bumpPrefix, bumpBin, h1, h2, hb]⟩
  · intro hoff
    have hb : bucketOf r2.ts = bucketOf r1.ts + 60 := by
      unfold bucketOf
      rw [hts]
      omega
    have hne : ¬ (bucketOf r1.ts + 60 = bucketOf r1.ts) := by omega
    refine ⟨by rw [hb]; omega, hb, ?_⟩
    simp [heartbeat, List.foldl, bumpPrefix, bumpBin, h1, h2, hb, hne]

/-- C3 (witness for the amended theorem): the same-window branch at timestamps
    0 and 30, and the boundary-straddling branch at timestamps 45 and 75. -/
theorem C3_witness :
    heartbeat [("u".toList, [⟨0, false, [], []⟩, ⟨30, false, [], []⟩])] =
      [("u".toList, [(bucketOf 0, 0, 2)])] ∧
    heartbeat [("v".toList, [⟨45, false, [], []⟩, ⟨75, false, [], []⟩])] =
      [("v".toList, [(bucketOf 45, 0, 1), (bucketOf 45 + 60, 0, 1)])] :=
  ⟨((C3_same_bucket ("u".toList) ⟨0, false, [], []⟩ ⟨30, false, [], []⟩
      rfl rfl rfl).1 (by decide)).2,
    ((C3_same_bucket ("v".toList) ⟨45, false, [], []⟩ ⟨75, false, [], []⟩
      rfl rfl rfl).2 (by decide)).2.2⟩

/-- C4: any comma-separated token whose space-stripped upper-cased form equals
    JOB.PASS:1 forces verdict Pass, whatever the other tokens (fail markers
    included), and a Pass record contributes no cause label, neither to the
    ingestion cause index nor to the filtered cause counts. -/
theorem C4_pass_precedence :
    (∀ text : List Char,
        (∃ tok ∈ pySplit ',' text, upper (removeSpaces tok) = jobPassMarker) →
          txt_is_pass text = true) ∧
    (∀ (idx : CauseIndex) (pth content : List Char),
        collectCauses idx true pth content = idx) ∧
    (∀ (k : List Char) (r : Record), r.is_pass = true → cause_counts [(k, [r])] = []) := by
  refine ⟨?_, ?_, ?_⟩
  · rintro text ⟨tok, htok, hm⟩
    obtain ⟨hm', hne⟩ := pyStrip_token_marker tok hm
    have hlbl : pyStrip tok ∈ labelsOf text := by
      rw [labelsOf, List.mem_filter]
      refine ⟨List.mem_map_of_mem _ htok, ?_⟩
      simp [List.isEmpty_iff, hne]
    have hany : (labelsOf text).any
        (fun lbl => upper (removeSpaces lbl) == jobPassMarker) = true :=
      List.any_eq_true.mpr ⟨pyStrip tok, hlbl, beq_iff_eq.mpr hm'⟩
    simp [txt_is_pass, hany]
  · intro idx pth content
    rw [collectCauses]
    generalize labelsOf content = ls
    induction ls generalizing idx with
    | nil => rfl
    | cons lbl rest ih =>
      rw [List.foldl_cons, show parseCauseStep true pth idx lbl = idx from by
        simp [parseCauseStep]]
      exact ih idx
  · intro k r h
    simp [cause_counts, h]

/-- C4 (witness) on the text Job.Fail:1, Job.Pass:1: the pass marker wins over
    the explicit fail marker, and the Pass record yields no cause entry. -/
theorem C4_witness :
    txt_is_pass ("Job.Fail:1, Job.Pass:1".toList) = true ∧
    cause_counts
        [("u".toList, [⟨0, true, "p".toList, "Job.Fail:1, Job.Pass:1".toList⟩])] = [] :=
  ⟨C4_pass_precedence.1 ("Job.Fail:1, Job.Pass:1".toList)
      ⟨" Job.Pass:1".toList, by decide, by decide⟩,
    C4_pass_precedence.2.2 ("u".toList)
      ⟨0, true, "p".toList, "Job.Fail:1, Job.Pass:1".toList⟩ rfl⟩

/-- C5: when no trimmed token normalizes to the pass or fail marker, the verdict
    is Fail (default-to-fail); an unreadable file loads as the empty text, which
    classifies Fail and contributes no cause label, and the loader is total. -/
theorem C5_default_fail :
    (∀ text : List Char,
        (∀ lbl ∈ labelsOf text,
            upper (removeSpaces lbl) ≠ jobPassMarker ∧
            upper (removeSpaces lbl) ≠ jobFailMarker) →
          txt_is_pass text = false) ∧
    load_txt none = [] ∧
    txt_is_pass [] = false ∧
    (∀ (idx : CauseIndex) (b : Bool) (pth : List Char), collectCauses idx b pth [] = idx) := by
  refine ⟨?_, rfl, by decide, fun idx b pth => rfl⟩
  intro text h
  have hp : (labelsOf text).any
      (fun lbl => upper (removeSpaces lbl) == jobPassMarker) = false :=
    List.any_eq_false.mpr fun lbl hlbl hbeq =>
      (h lbl hlbl).1 (beq_iff_eq.mp hbeq)
  have hf : (labelsOf text).any
      (fun lbl => upper (removeSpaces lbl) == jobFailMarker) = false :=
    List.any_eq_false.mpr fun lbl hlbl hbeq =>
      (h lbl hlbl).2 (beq_iff_eq.mp hbeq)
  simp [txt_is_pass, hp, hf]

/-- C5 (witness) on the spec's scenario text Sensor:OK. -/
theorem C5_witness : txt_is_pass ("Sensor:OK".toList) = false :=
  C5_default_fail.1 ("Sensor:OK".toList) (by decide)

/-- C7: applying apply_filters twice with one spec equals applying it once; in
    this pure model the source map is a value, so the source is never mutated. -/
theorem C7_filter_idempotent :
    ∀ (spec : FilterSpec) (d : Grouped),
      apply_filters spec (apply_filters spec d) = apply_filters spec d := by
  intro spec d
  induction d with
  | nil => rfl
  | cons e rest ih =>
    obtain ⟨pref, evs⟩ := e
    simp [apply_filters, ih, filterEvents_idem]

/-- C8: filtering preserves the identity keys exactly (same keys, same order);
    an identity whose records are all excluded stays as a key with an empty
    list, as the concrete Fail-filtered pass-only group shows. -/
theorem C8_keys_preserved :
    (∀ (spec : FilterSpec) (d : Grouped),
        (apply_filters spec d).map Prod.fst = d.map Prod.fst) ∧
    apply_filters ⟨Outcome.Fail, none, none⟩ [("u".toList, [⟨0, true, [], []⟩])] =
      [("u".toList, [])] := by
  constructor
  · intro spec d
    induction d with
    | nil => rfl
    | cons e rest ih =>
      obtain ⟨pref, evs⟩ := e
      simp [apply_filters, ih]
  · decide

/-- C9: for a non-empty row list and positive page size, the last page is
    non-empty, prev at the first page and next at the last page stay put
    (saturating), and firstPage after lastPage restores the original state. -/
theorem C9_pagination (rows : List Row) (size : Nat) (hr : rows ≠ []) (hs : 0 < size) :
    current_rows (last_page ⟨rows, size, 0⟩) ≠ [] ∧
    prev_page ⟨rows, size, 0⟩ = ⟨rows, size, 0⟩ ∧
    next_page (last_page ⟨rows, size, 0⟩) = last_page ⟨rows, size, 0⟩ ∧
    first_page (last_page ⟨rows, size, 0⟩) = (⟨rows, size, 0⟩ : FolderViewer) := by
  have hne : rows.isEmpty = false := by
    cases rows with
    | nil => exact absurd rfl hr
    | cons a l => rfl
  have hlen : 0 < rows.length := List.length_pos.mpr hr
  have hlp : last_page ⟨rows, size, 0⟩ =
      ⟨rows, size, (rows.length - 1) / size⟩ := by
    simp [last_page, hne]
  refine ⟨?_, ?_, ?_, ?_⟩
  · rw [hlp]
    have hL : (rows.length - 1) / size * size ≤ rows.length - 1 :=
      Nat.div_mul_le_self _ _
    apply List.ne_nil_of_length_pos
    simp only [current_rows, List.length_take, List.length_drop]
    generalize hm : (rows.length - 1) / size * size = m at hL
    omega
  · simp [prev_page]
  · rw [hlp]
    have hdm := Nat.div_add_mod (rows.length - 1) size
    have hmod := Nat.mod_lt (rows.length - 1) hs
    have key : ¬(((rows.length - 1) / size + 1) * size < rows.length) := by
      rw [Nat.add_mul, one_mul, Nat.mul_comm]
      generalize hm : size * ((rows.length - 1) / size) = m at hdm
      omega
    simp [next_page, key]
  · rw [hlp]
    simp [first_page, last_page, hne]

/-- C9 (witness) at a one-row list with page size 10. -/
theorem C9_witness :
    current_rows (last_page ⟨[⟨[], [], [], [], []⟩], 10, 0⟩) ≠ [] ∧
    prev_page ⟨[⟨[], [], [], [], []⟩], 10, 0⟩ = ⟨[⟨[], [], [], [], []⟩], 10, 0⟩ ∧
    next_page (last_page ⟨[⟨[], [], [], [], []⟩], 10, 0⟩) =
      last_page ⟨[⟨[], [], [], [], []⟩], 10, 0⟩ ∧
    first_page (last_page ⟨[⟨[], [], [], [], []⟩], 10, 0⟩) =
      (⟨[⟨[], [], [], [], []⟩], 10, 0⟩ : FolderViewer) :=
  C9_pagination [⟨[], [], [], [], []⟩] 10 (by decide) (by decide)

theorem pySplit_ne_nil (sep : Char) (l : List Char) : pySplit sep l ≠ [] := by
  induction l with
  | nil => simp [pySplit]
  | cons c rest ih =>
    by_cases h : c = sep
    · simp [pySplit, h]
    · simp only [pySplit, if_neg h]
      cases hr : pySplit sep rest <;> simp

theorem pySplit_eq_cons (sep : Char) (l : List Char) : ∃ s ss, pySplit sep l = s :: ss := by
  obtain ⟨s, ss, h⟩ := List.exists_cons_of_ne_nil (pySplit_ne_nil sep l)
  exact ⟨s, ss, h⟩

theorem pySplit_cons_sep (sep : Char) (rest : List Char) :
    pySplit sep (sep :: rest) = [] :: pySplit sep rest := by
  simp [pySplit]

theorem pySplit_cons_ne (sep c : Char) (rest : List Char) (h : c ≠ sep)
    {s : List Char} {ss : List (List Char)} (hss : pySplit sep rest = s :: ss) :
    pySplit sep (c :: rest) = (c :: s) :: ss := by
  simp only [pySplit, if_neg h, hss]

theorem intercalateC_pySplit (sep : Char) (l : List Char) :
    intercalateC sep (pySplit sep l) = l := by
  induction l with
  | nil => rfl
  | cons c rest ih =>
    obtain ⟨s, ss, hss⟩ := pySplit_eq_cons sep rest
    by_cases h : c = sep
    · subst h
      rw [pySplit_cons_sep, hss,
        show intercalateC c ([] :: s :: ss) = c :: intercalateC c (s :: ss) from rfl,
        ← hss, ih]
    · rw [pySplit_cons_ne sep c rest h hss]
      rw [hss] at ih
      cases ss with
      | nil =>
        have hs : s = rest := ih
        rw [show intercalateC sep [c :: s] = c :: s from rfl, hs]
      | cons s2 ss2 =>
        rw [show intercalateC sep ((c :: s) :: s2 :: ss2) =
            (c :: s) ++ sep :: intercalateC sep (s2 :: ss2) from rfl]
        rw [show intercalateC sep (s :: s2 :: ss2) =
            s ++ sep :: intercalateC sep (s2 :: ss2) from rfl] at ih
        rw [List.cons_append, ih]

theorem sep_not_mem_pySplit (sep : Char) (l : List Char) :
    ∀ s ∈ pySplit sep l, sep ∉ s := by
  induction l with
  | nil =>
    intro s hs
    simp [pySplit] at hs
    subst hs
    simp
  | cons c rest ih =>
    intro s hs
    by_cases h : c = sep
    · subst h
      rw [pySplit_cons_sep] at hs
      rcases List.mem_cons.mp hs with rfl | hs'
      · simp
      · exact ih s hs'
    · obtain ⟨t, ts, hts⟩ := pySplit_eq_cons sep rest
      rw [pySplit_cons_ne sep c rest h hts] at hs
      rcases List.mem_cons.mp hs with rfl | hs'
      · intro hmem
        rcases List.mem_cons.mp hmem with e | hmem'
        · exact h e.symm
        · exact ih t (by rw [hts]; exact List.mem_cons_self t ts) hmem'
      · exact ih s (by rw [hts]; exact List.mem_cons_of_mem t hs')

theorem mem_iff_pySplit_len (sep : Char) (l : List Char) :
    sep ∈ l ↔ 2 ≤ (pySplit sep l).length := by
  induction l with
  | nil => simp [pySplit]
  | cons c rest ih =>
    by_cases h : c = sep
    · subst h
      rw [pySplit_cons_sep]
      obtain ⟨s, ss, hss⟩ := pySplit_eq_cons c rest
      simp [hss]
    · obtain ⟨s, ss, hss⟩ := pySplit_eq_cons sep rest
      rw [pySplit_cons_ne sep c rest h hss]
      rw [hss] at ih
      constructor
      · intro hm
        rcases List.mem_cons.mp hm with e | hmem
        · exact absurd e.symm h
        · have := ih.mp hmem
          simp only [List.length_cons] at this ⊢
          omega
      · intro hlen
        apply List.mem_cons_of_mem
        apply ih.mpr
        simp only [List.length_cons] at hlen ⊢
        omega

theorem intercalateC_concat (sep : Char) (qs : List (List Char)) (s : List Char)
    (h : qs ≠ []) :
    intercalateC sep (qs ++ [s]) = intercalateC sep qs ++ sep :: s := by
  induction qs with
  | nil => exact absurd rfl h
  | cons q qs ih =>
    cases qs with
    | nil => rfl
    | cons q2 qs2 =>
      have ih' := ih (by simp)
      show q ++ sep :: intercalateC sep ((q2 :: qs2) ++ [s]) =
        (q ++ sep :: intercalateC sep (q2 :: qs2)) ++ sep :: s
      rw [ih']
      simp [List.append_assoc]

theorem dropWhile_append_sep (sep : Char) (ys : List Char) :
    ∀ xs : List Char, (∀ c ∈ xs, c ≠ sep) →
      (xs ++ sep :: ys).dropWhile (fun c => c != sep) = sep :: ys := by
  intro xs hxs
  induction xs with
  | nil => simp [List.dropWhile_cons]
  | cons x xs ih =>
    have hx : x ≠ sep := hxs x (List.mem_cons_self x xs)
    rw [List.cons_append, List.dropWhile_cons, if_pos (by simp [bne_iff_ne, hx])]
    exact ih fun c hc => hxs c (List.mem_cons_of_mem _ hc)

/-- C6: the source's split/join identity derivation agrees with the spec's
    description (base name minus the last underscore-delimited segment, whole
    base name when no underscore occurs) on every base name, and the scenario
    files unitA_001/unitA_002/unitB group as unitA with 2 records and unitB
    with 1 record. -/
theorem C6_identity :
    (∀ base : List Char, prefix_of base = spec_identity base) ∧
    (parse_folder_data
        [⟨"unitA_001.txt".toList, 0, some ("Job.Pass:1".toList)⟩,
         ⟨"unitA_002.txt".toList, 1, some ("Job.Pass:1".toList)⟩,
         ⟨"unitB.txt".toList, 2, some ("Job.Pass:1".toList)⟩]).1.map
        (fun e => (e.1, e.2.length)) =
      [("unitA".toList, 2), ("unitB".toList, 1)] := by
  constructor
  · intro base
    by_cases h : '_' ∈ base
    · have hlen : 2 ≤ (pySplit '_' base).length := (mem_iff_pySplit_len '_' base).mp h
      have hnn : pySplit '_' base ≠ [] := pySplit_ne_nil '_' base
      obtain ⟨qs, s, hqs_ne, hsplit, hsep⟩ :
          ∃ qs s, qs ≠ [] ∧ qs ++ [s] = pySplit '_' base ∧ '_' ∉ s := by
        refine ⟨(pySplit '_' base).dropLast, (pySplit '_' base).getLast hnn, ?_,
          List.dropLast_append_getLast hnn,
          sep_not_mem_pySplit '_' base _ (List.getLast_mem hnn)⟩
        have hl : (pySplit '_' base).dropLast.length = (pySplit '_' base).length - 1 :=
          List.length_dropLast _
        intro h0
        rw [h0] at hl
        simp at hl
        omega
      have hbase : base = intercalateC '_' qs ++ '_' :: s := by
        conv_lhs => rw [← intercalateC_pySplit '_' base]
        rw [← hsplit, intercalateC_concat '_' qs s hqs_ne]
      have hpre : prefix_of base = intercalateC '_' qs := by
        simp only [prefix_of]
        rw [if_pos (by omega : 1 < (pySplit '_' base).length)]
        rw [← hsplit, List.dropLast_concat]
      have hrev : base.reverse =
          s.reverse ++ '_' :: (intercalateC '_' qs).reverse := by
        rw [hbase]
        simp [List.reverse_append]
      have hdrop : base.reverse.dropWhile (fun c => c != '_') =
          '_' :: (intercalateC '_' qs).reverse := by
        rw [hrev]
        exact dropWhile_append_sep '_' _ _
          (fun c hc e => hsep (by rw [← e]; exact List.mem_reverse.mp hc))
      rw [spec_identity, if_pos h, hdrop, hpre]
      simp
    · have hnn := pySplit_ne_nil '_' base
      have hlen : ¬ 2 ≤ (pySplit '_' base).length :=
        fun hh => h ((mem_iff_pySplit_len '_' base).mpr hh)
      have hpos : 0 < (pySplit '_' base).length :=
        List.length_pos.mpr hnn
      obtain ⟨a, ha⟩ := List.length_eq_one.mp (by omega : (pySplit '_' base).length = 1)
      have hi := intercalateC_pySplit '_' base
      rw [ha] at hi
      have hab : a = base := hi
      rw [spec_identity, if_neg h]
      simp only [prefix_of, ha]
      simp [hab]
  · decide

/-- C10: cause aggregation keys on the raw stripped label: labels differing only
    in case (Voltage:Low vs voltage:low) or internal spacing (Voltage :Low) form
    three distinct entries with separate path lists, both in the ingestion-time
    index and in the filtered cause counts. -/
theorem C10_raw_label_keys :
    (parse_folder_data
        [⟨"m_1.txt".toList, 0, some ("Voltage:Low, Job.Fail:1".toList)⟩,
         ⟨"m_2.txt".toList, 5, some ("voltage:low, Job.Fail:1".toList)⟩,
         ⟨"m_3.txt".toList, 9, some ("Voltage :Low, Job.Fail:1".toList)⟩]).2 =
      [("Voltage:Low".toList, ["m_1.txt".toList]),
       ("voltage:low".toList, ["m_2.txt".toList]),
       ("Voltage :Low".toList, ["m_3.txt".toList])] ∧
    cause_counts
        (parse_folder_data
          [⟨"m_1.txt".toList, 0, some ("Voltage:Low, Job.Fail:1".toList)⟩,
           ⟨"m_2.txt".toList, 5, some ("voltage:low, Job.Fail:1".toList)⟩,
           ⟨"m_3.txt".toList, 9, some ("Voltage :Low, Job.Fail:1".toList)⟩]).1 =
      [("Voltage:Low".toList, ["m_1.txt".toList]),
       ("voltage:low".toList, ["m_2.txt".toList]),
       ("Voltage :Low".toList, ["m_3.txt".toList])] := by
  decide

